import Mathlib

/-!
Shallow embedding of the block-oriented log-tailing and time-series
assembly pipeline of `src/main.py` (stress-test dashboard).

Bytes and text are modelled as lists of characters (one character per
byte; the streams handled by the program are ASCII, and
`bytes.decode(errors='ignore')` is the identity on them).  Python floats
are modelled as exact rationals: every numeric literal accepted by the
parsing regexes denotes a decimal number, which is exact in the model.
Wall-clock instants returned by `get_timestamp()` are rationals passed
explicitly as a `now` argument.  Mutable attributes of the dashboard
object become fields of `AppState`; GUI widgets, timers' scheduling and
file-system identities are not data of the pipeline and are reduced to
the booleans the code branches on.
-/

namespace StressTool

/-- A byte string, one `Char` per byte. -/
abbrev Bytes := List Char

/-! ## Line reassembler (`_read_stress_file_tail`, lines 2929-2934)

`buf = self._file_tail_rem + data`, `lines = buf.split(b"\n")`,
`self._file_tail_rem = lines[-1]` — Python `bytes.split` on a single
newline byte. -/

/-- Python `buf.split(b"\n")`: split a byte string at every newline
byte.  The result is never empty; `b"".split(b"\n") == [b""]`. -/
def splitNl : Bytes → List Bytes
  | [] => [[]]
  | c :: rest =>
    if c = '\n' then [] :: splitNl rest
    else
      match splitNl rest with
      | [] => [[c]]
      | h :: t => (c :: h) :: t

/-- Inverse of `splitNl`: interleave a newline byte between the parts. -/
def joinNl : List Bytes → Bytes
  | [] => []
  | [l] => l
  | l :: rest => l ++ '\n' :: joinNl rest

/-- Concatenate emitted lines, restoring the newline terminator each
complete line lost when it was split off. -/
def joinLines : List Bytes → Bytes
  | [] => []
  | l :: rest => l ++ '\n' :: joinLines rest

/-- One reassembly step: prepend the previous remainder to the chunk,
split on newline bytes; all parts but the last are the emitted complete
lines, the last part is the new remainder (lines 2929-2934). -/
def feed (rem chunk : Bytes) : List Bytes × Bytes :=
  let parts := splitNl (rem ++ chunk)
  (parts.dropLast, parts.getLastD [])

/-- Feed a sequence of chunks through the reassembler, collecting every
emitted line and the final remainder. -/
def runChunks (rem : Bytes) : List Bytes → List Bytes × Bytes
  | [] => ([], rem)
  | chunk :: rest =>
    let fed := feed rem chunk
    let tail := runChunks fed.2 rest
    (fed.1 ++ tail.1, tail.2)

/-! ## Extraction patterns (`_parse_stress_lines`, lines 2981-3009)

Each Python regex is applied with `re.search` but is anchored with `^`
(and no MULTILINE flag), so it can only match at the start of the line.
The patterns are simple enough that regex backtracking never changes the
outcome, so each is translated to a deterministic maximal-munch matcher;
only the numeric capture groups are kept. -/

/-- Python regex class `\s`: blank characters. -/
def isPySpace (c : Char) : Bool :=
  c = ' ' || c = '\t' || c = '\n' || c = '\r' || c = '\x0b' || c = '\x0c'

/-- `\s*`: greedily drop leading whitespace. -/
def dropSpaces (s : List Char) : List Char := s.dropWhile isPySpace

/-- Match a literal character sequence, returning the rest on success. -/
def stripLit : List Char → List Char → Option (List Char)
  | [], s => some s
  | _ :: _, [] => none
  | c :: cs, x :: xs => if x = c then stripLit cs xs else none

/-- `[0-9]+` greedily: the digit run and the rest of the input. -/
def takeDigits (s : List Char) : List Char × List Char :=
  (s.takeWhile Char.isDigit, s.dropWhile Char.isDigit)

/-- Numeric value of a decimal digit run, as Python `int`. -/
def digitsVal (ds : List Char) : ℕ :=
  ds.foldl (fun acc c => acc * 10 + (c.toNat - 48)) 0

/-- `([0-9]+(?:\.[0-9]+)?)%`: a decimal percentage capture followed by a
percent sign, converted as Python `float(...)` (exact rational in the
model).  Anything may follow the percent sign (`re.search` does not
anchor the end). -/
def parseNumPercent (s : List Char) : Option ℚ :=
  let intPart := takeDigits s
  if intPart.1 = [] then none
  else
    match intPart.2 with
    | '.' :: r2 =>
      let fracPart := takeDigits r2
      if fracPart.1 = [] then none
      else
        match fracPart.2 with
        | '%' :: _ =>
          some ((digitsVal intPart.1 : ℚ) +
            (digitsVal fracPart.1 : ℚ) / ((10 : ℚ) ^ fracPart.1.length))
        | _ => none
    | '%' :: _ => some ((digitsVal intPart.1 : ℚ))
    | _ => none

/-- `^\s*cpu:\s*([0-9]+(?:\.[0-9]+)?)%` (line 2981). -/
def matchCpuOverall (line : List Char) : Option ℚ :=
  match stripLit (String.toList "cpu:") (dropSpaces line) with
  | some r => parseNumPercent (dropSpaces r)
  | none => none

/-- `^\s*cpu(\d+):\s*([0-9]+(?:\.[0-9]+)?)%` (line 2988): captures the
core index and the percentage. -/
def matchCpuCore (line : List Char) : Option (ℕ × ℚ) :=
  match stripLit (String.toList "cpu") (dropSpaces line) with
  | some r =>
    let idPart := takeDigits r
    if idPart.1 = [] then none
    else
      match idPart.2 with
      | ':' :: r2 =>
        match parseNumPercent (dropSpaces r2) with
        | some v => some (digitsVal idPart.1, v)
        | none => none
      | _ => none
  | none => none

/-- `^\[Monitor\]\s*<field>\s*usage:\s*([0-9]+(?:\.[0-9]+)?)%`
(lines 2997 and 3004, with field `DRAM` or `GPU`). -/
def matchMonitorField (field : List Char) (line : List Char) : Option ℚ :=
  match stripLit (String.toList "[Monitor]") line with
  | some r =>
    match stripLit field (dropSpaces r) with
    | some r2 =>
      match stripLit (String.toList "usage:") (dropSpaces r2) with
      | some r3 => parseNumPercent (dropSpaces r3)
      | none => none
    | none => none
  | none => none

/-- The block-start marker tested with `str.startswith` (line 2967). -/
def startMarker : List Char := String.toList "[Monitor] CPU Usage (per core):"

/-- The completion marker searched for with `in` (line 2947). -/
def completionMarker : List Char := String.toList "Stress test completed"

/-- The DRAM field label of the pattern at line 2997. -/
def dramLit : List Char := String.toList "DRAM"

/-- The GPU field label of the pattern at line 3004. -/
def gpuLit : List Char := String.toList "GPU"

/-- Boolean prefix test (Python `str.startswith`). -/
def hasPrefixB : List Char → List Char → Bool
  | [], _ => true
  | _ :: _, [] => false
  | c :: cs, x :: xs => x = c && hasPrefixB cs xs

/-- Python `pat in s`: substring occurrence. -/
def containsSub (pat : List Char) : List Char → Bool
  | [] => hasPrefixB pat []
  | x :: rest => hasPrefixB pat (x :: rest) || containsSub pat rest

/-- Python `str.rstrip('\r')`: drop every trailing carriage return. -/
def rstripCR (l : List Char) : List Char :=
  (l.reverse.dropWhile (fun c => c = '\r')).reverse

/-! ## Data model -/

/-- One committed block: the four optional measurements accumulated while
the block was active (`_enqueue_block` parameters, line 3036).  Absent
fields stay `none`; they are skipped at emission time. -/
structure Sample where
  cpuOverall : Option ℚ
  coreVals : List (ℕ × ℚ)
  dramVal : Option ℚ
  gpuVal : Option ℚ
deriving DecidableEq

/-- The mutable attributes of the dashboard that the tailing pipeline
reads or writes.  `blockTimerActive`/`fileTailActive` stand for
`self._block_timer.isActive()` and `self._file_tail_path is not None`
together with the running tail timer; the per-core series list plays the
role of the `self.core_states` dict (fixed key set, one value list per
configured core). -/
structure AppState where
  blkActive : Bool
  blkCpuOverall : Option ℚ
  blkCoreVals : List (ℕ × ℚ)
  blkDramVal : Option ℚ
  blkGpuVal : Option ℚ
  blockQueue : List Sample
  blockTimerActive : Bool
  fileBlockIdx : ℤ
  nextBlockDue : Option ℚ
  fileStartEpoch : ℚ
  fileTailRem : List Char
  fileTailActive : Bool
  fileTailPos : ℕ
  lineBuffer : List Char
  rawLogBuffer : List Char
  seriesCpu : List (ℚ × ℚ)
  seriesDram : List (ℚ × ℚ)
  seriesGpu : List (ℚ × ℚ)
  seriesCores : List (ℕ × List (ℚ × ℚ))
  isRunning : Bool
  endTimeEpoch : Option ℚ
deriving DecidableEq

/-- Python dict assignment `d[k] = v`: replace in place if the key is
present (keeping its position), else append at the end. -/
def dictInsert (k : ℕ) (v : ℚ) : List (ℕ × ℚ) → List (ℕ × ℚ)
  | [] => [(k, v)]
  | (k', v') :: rest =>
    if k' = k then (k, v) :: rest else (k', v') :: dictInsert k v rest

/-- `any([...])` test of line 2969: the active block has at least one
non-empty field. -/
def blkHasData (s : AppState) : Bool :=
  s.blkCpuOverall.isSome || !s.blkCoreVals.isEmpty ||
    s.blkDramVal.isSome || s.blkGpuVal.isSome

/-! ## Block queue and pacer -/

/-- `_enqueue_block` (lines 3036-3048): append the committed sample to
the FIFO (`dict(core_vals)` snapshots the per-core mapping, which the
immutable model renders as plain reuse); if the 250 ms block timer is
not yet running, reset the block index, make the first emission due
immediately and start the timer. -/
def enqueueBlock (now : ℚ) (cpu : Option ℚ) (coreVals : List (ℕ × ℚ))
    (dram gpu : Option ℚ) (s : AppState) : AppState :=
  let s1 := { s with blockQueue := s.blockQueue ++ [⟨cpu, coreVals, dram, gpu⟩] }
  if s1.blockTimerActive then s1
  else { s1 with fileBlockIdx := -1, nextBlockDue := some now,
                 blockTimerActive := true }

/-- `max(0, min(100, v))` (lines 3060-3067). -/
def clamp01 (v : ℚ) : ℚ := max 0 (min 100 v)

/-- The unconditional `values.append((block_ts, clamped))` performed by
`_maybe_emit_block` on one series list. -/
def storeAppend (series : List (ℚ × ℚ)) (ts v : ℚ) : List (ℚ × ℚ) :=
  series ++ [(ts, clamp01 v)]

/-- `if cid in self.core_states: ... append` (lines 3061-3063): a core
id without a configured series is silently dropped. -/
def coresAppend (cores : List (ℕ × List (ℚ × ℚ))) (cid : ℕ) (ts v : ℚ) :
    List (ℕ × List (ℚ × ℚ)) :=
  cores.map (fun p => if p.1 = cid then (p.1, storeAppend p.2 ts v) else p)

/-- Append every present field of a popped sample to its series
(lines 3059-3067), in source order: overall CPU, per-core values in dict
order, DRAM, GPU. -/
def emitSample (s : AppState) (ts : ℚ) (smp : Sample) : AppState :=
  let s1 :=
    match smp.cpuOverall with
    | some v => { s with seriesCpu := storeAppend s.seriesCpu ts v }
    | none => s
  let s2 := smp.coreVals.foldl
    (fun st p => { st with seriesCores := coresAppend st.seriesCores p.1 ts p.2 })
    s1
  let s3 :=
    match smp.dramVal with
    | some v => { s2 with seriesDram := storeAppend s2.seriesDram ts v }
    | none => s2
  match smp.gpuVal with
  | some v => { s3 with seriesGpu := storeAppend s3.seriesGpu ts v }
  | none => s3

/-- The synthetic timestamp of line 3058:
`start_epoch + 5.0 * max(0, block_index)` for a given block index. -/
def blockTs (s : AppState) (idx : ℤ) : ℚ :=
  s.fileStartEpoch + 5 * ((max 0 idx : ℤ) : ℚ)

/-- `_maybe_emit_block` (lines 3050-3076), one pacer tick at wall time
`now`: a no-op if the queue is empty, no due time is set, or the due
time has not been reached; otherwise pop the head sample, advance the
block index, emit under the synthetic timestamp and push the due time
5 s past `now`.  Also returns the emission, if any, for observation. -/
def maybeEmitBlock (now : ℚ) (s : AppState) : AppState × Option (ℚ × Sample) :=
  match s.blockQueue, s.nextBlockDue with
  | [], _ => (s, none)
  | _ :: _, none => (s, none)
  | smp :: rest, some due =>
    if now < due then (s, none)
    else
      let idx := s.fileBlockIdx + 1
      let ts := blockTs s idx
      let s1 := { s with blockQueue := rest, fileBlockIdx := idx }
      let s2 := emitSample s1 ts smp
      ({ s2 with nextBlockDue := some (now + 5) }, some (ts, smp))

/-- Run the pacer over a list of tick instants, collecting the
emissions in order. -/
def ticksRun (s : AppState) : List ℚ → AppState × List (ℚ × Sample)
  | [] => (s, [])
  | t :: rest =>
    let step := maybeEmitBlock t s
    let tail := ticksRun step.1 rest
    (tail.1, match step.2 with | some e => e :: tail.2 | none => tail.2)

/-! ## Block segmenter and sample extractor
(`_parse_stress_lines`, lines 2964-3034) -/

/-- Reset the active-block accumulator fields. -/
def resetBlk (active : Bool) (s : AppState) : AppState :=
  { s with blkActive := active, blkCpuOverall := none, blkCoreVals := [],
           blkDramVal := none, blkGpuVal := none }

/-- Process one already-reassembled line.  Branches in source order:
block-start marker (flush-before-restart), inactive guard, overall CPU,
per-core CPU, DRAM, GPU (commit on match), blank-line commit when DRAM
or GPU was recorded.  The second start-marker test of lines 3019-3026 is
unreachable (the first branch ends in `continue`) and therefore absent. -/
def stepLine (now : ℚ) (s : AppState) (line : List Char) : AppState :=
  if hasPrefixB startMarker line then
    let s1 :=
      if s.blkActive && blkHasData s then
        enqueueBlock now s.blkCpuOverall s.blkCoreVals s.blkDramVal s.blkGpuVal s
      else s
    resetBlk true s1
  else if !s.blkActive then s
  else
    match matchCpuOverall line with
    | some v => { s with blkCpuOverall := some v }
    | none =>
      match matchCpuCore line with
      | some cv => { s with blkCoreVals := dictInsert cv.1 cv.2 s.blkCoreVals }
      | none =>
        match matchMonitorField dramLit line with
        | some v => { s with blkDramVal := some v }
        | none =>
          match matchMonitorField gpuLit line with
          | some v =>
            let s1 := { s with blkGpuVal := some v }
            let s2 := enqueueBlock now s1.blkCpuOverall s1.blkCoreVals
              s1.blkDramVal s1.blkGpuVal s1
            resetBlk false s2
          | none =>
            if line.all isPySpace &&
                (s.blkDramVal.isSome || s.blkGpuVal.isSome) then
              let s1 := enqueueBlock now s.blkCpuOverall s.blkCoreVals
                s.blkDramVal s.blkGpuVal s
              resetBlk false s1
            else s

/-- `_parse_stress_lines`: fold `stepLine` over the delivered lines. -/
def parseLines (now : ℚ) (s : AppState) (lines : List (List Char)) : AppState :=
  lines.foldl (stepLine now) s

/-! ## Tail source adapters -/

/-- `_stop_tail_file` (lines 2900-2904): stop the tail timer, forget the
path, clear the byte remainder and reset the block index.  The block
queue, the block timer and the pending due time are left untouched. -/
def stopTailFile (s : AppState) : AppState :=
  { s with fileTailActive := false, fileTailRem := [], fileBlockIdx := -1 }

/-- `_stop_process` (lines 2154-2159): kill the spawned process (not
data of the model) and stop the file tail. -/
def stopProcess (s : AppState) : AppState := stopTailFile s

/-- `_on_clear` (lines 2808-2817): clear every subsystem and per-core
series, rewind the tail position and drop the byte remainder.  The block
queue, pacer due time, block index and timer are left untouched. -/
def onClear (s : AppState) : AppState :=
  { s with seriesCpu := [], seriesDram := [], seriesGpu := [],
           seriesCores := s.seriesCores.map (fun p => (p.1, ([] : List (ℚ × ℚ)))),
           fileTailPos := 0, fileTailRem := [] }

/-- The line post-processing of line 2935:
`[ln.decode(errors='ignore').rstrip('\r') for ln in lines[:-1] if ln]` —
empty byte lines are filtered out, the rest are decoded (identity here)
with trailing carriage returns stripped. -/
def newLinesOf (parts : List Bytes) : List (List Char) :=
  (parts.filter (fun l => !l.isEmpty)).map rstripCR

/-- The local file tail (`_read_stress_file_tail`, lines 2906-2962),
given the bytes `data` the poll read from the file at the remembered
offset (the `os.path.getsize` truncation probe and the `open`/`seek`
I/O are outside the state model).  Returns unchanged when no tail is
active (`if not self._file_tail_path: return`) or nothing was read;
otherwise advances the offset, reassembles lines, parses them, and stops
the tail when the completion marker is seen. -/
def fileTailFeed (now : ℚ) (s : AppState) (data : Bytes) : AppState :=
  if !s.fileTailActive then s
  else if data.isEmpty then s
  else
    let fed := feed s.fileTailRem data
    let newLines := newLinesOf fed.1
    let s1 := { s with fileTailPos := s.fileTailPos + data.length,
                       fileTailRem := fed.2 }
    let s2 := parseLines now s1 newLines
    if newLines.any (fun l => containsSub completionMarker l)
      then stopTailFile s2 else s2

/-- `_on_stop` restricted to its pipeline-state effects (lines
2161-2199 single-OS reading): mark not running, clear the end time and
stop the process and tail.  Console/UART switching is GUI-only. -/
def onStop (s : AppState) : AppState :=
  stopProcess { s with isRunning := false, endTimeEpoch := none }

/-- The remote streaming tail (`_on_process_output`, lines 2276-2305):
when the scheduled end time has passed, stop the test; otherwise append
the chunk to the raw log (if non-empty) and to `line_buffer` — which no
other code ever reads — and mark the run finished if the completion text
has appeared in the raw log.  No line reassembly, block parsing or
series append happens on this path. -/
def onProcessOutput (now : ℚ) (s : AppState) (chunk : Bytes) : AppState :=
  if s.isRunning &&
      (match s.endTimeEpoch with | some t => decide (t ≤ now) | none => false) then
    onStop s
  else
    let s1 := if chunk.isEmpty then s
      else { s with rawLogBuffer := s.rawLogBuffer ++ chunk,
                    lineBuffer := s.lineBuffer ++ chunk }
    if containsSub completionMarker s1.rawLogBuffer
      then { s1 with isRunning := false } else s1

/-- The pipeline state right after `_start_tail_file` on a fresh
dashboard (attribute initialisers of lines 300-358 plus the resets of
lines 2874-2885), with the session start epoch and the configured core
ids as parameters. -/
def startState (epoch : ℚ) (coreIds : List ℕ) : AppState :=
  { blkActive := false, blkCpuOverall := none, blkCoreVals := [],
    blkDramVal := none, blkGpuVal := none,
    blockQueue := [], blockTimerActive := false, fileBlockIdx := -1,
    nextBlockDue := none, fileStartEpoch := epoch,
    fileTailRem := [], fileTailActive := true, fileTailPos := 0,
    lineBuffer := [], rawLogBuffer := [],
    seriesCpu := [], seriesDram := [], seriesGpu := [],
    seriesCores := coreIds.map (fun i => (i, ([] : List (ℚ × ℚ)))),
    isRunning := true, endTimeEpoch := none }

/-! ## Concrete example states used to evaluate the pipeline -/

/-- A committed block carrying only an overall-CPU reading. -/
def sampleA : Sample := ⟨some 50, [], none, none⟩

/-- A committed block carrying an overall-CPU and a GPU reading. -/
def sampleB : Sample := ⟨some 60, [], none, some 3⟩

/-- A session whose queue holds two committed blocks, with the pacer
armed and the first emission due immediately. -/
def loadedState : AppState :=
  { startState 0 [] with
      blockQueue := [sampleA, sampleB],
      blockTimerActive := true, nextBlockDue := some 0 }

/-- A session in the middle of an active block that has already
recorded a DRAM value. -/
def activeDramState : AppState :=
  { startState 0 [] with blkActive := true, blkDramVal := some 5 }

/-- One raw chunk holding a complete block: start marker then GPU line. -/
def oneBlockChunk : Bytes :=
  String.toList "[Monitor] CPU Usage (per core):\n[Monitor] GPU usage: 5%\n"

/-- The flush-on-restart line sequence of the spec, with the
placeholder GPU line spelt so that it matches the GPU pattern. -/
def flushLines : List (List Char) :=
  [startMarker, String.toList "cpu: 10%", startMarker,
   String.toList "cpu: 20%", String.toList "[Monitor] GPU usage: 5%"]

/-- The last-write-wins line sequence of the spec, inside one block. -/
def lwwLines : List (List Char) :=
  [startMarker, String.toList "cpu: 10%", String.toList "cpu: 30%",
   String.toList "[Monitor] GPU usage: 0%"]

/-! # Theorems -/

/-! ## Pacer lemmas -/

theorem coreFold_shape (ts : ℚ) (l : List (ℕ × ℚ)) : ∀ s : AppState,
    ∃ cs, l.foldl
        (fun st p => { st with seriesCores := coresAppend st.seriesCores p.1 ts p.2 }) s =
      { s with seriesCores := cs } := by
  induction l with
  | nil => intro s; exact ⟨s.seriesCores, rfl⟩
  | cons p t ih =>
    intro s
    obtain ⟨cs, hcs⟩ :=
      ih { s with seriesCores := coresAppend s.seriesCores p.1 ts p.2 }
    exact ⟨cs, by rw [List.foldl_cons, hcs]⟩

theorem emitSample_shape (s : AppState) (ts : ℚ) (smp : Sample) :
    ∃ sc scs sd sg, emitSample s ts smp =
      { s with seriesCpu := sc, seriesCores := scs,
               seriesDram := sd, seriesGpu := sg } := by
  rcases smp with ⟨co, cv, dv, gv⟩
  unfold emitSample
  cases co <;>
    { obtain ⟨cs, hcs⟩ := coreFold_shape ts cv _
      simp only []
      rw [hcs]
      cases dv <;> cases gv <;> exact ⟨_, _, _, _, rfl⟩ }

theorem emitSample_seriesCpu (s : AppState) (ts : ℚ) (smp : Sample) :
    (emitSample s ts smp).seriesCpu =
      match smp.cpuOverall with
      | some v => storeAppend s.seriesCpu ts v
      | none => s.seriesCpu := by
  rcases smp with ⟨co, cv, dv, gv⟩
  unfold emitSample
  cases co <;>
    { obtain ⟨cs, hcs⟩ := coreFold_shape ts cv _
      simp only []
      rw [hcs]
      cases dv <;> cases gv <;> rfl }

theorem maybeEmit_skip (now : ℚ) (s : AppState)
    (h : s.blockQueue = [] ∨ s.nextBlockDue = none ∨
      ∃ d, s.nextBlockDue = some d ∧ now < d) :
    maybeEmitBlock now s = (s, none) := by
  unfold maybeEmitBlock
  rcases h with h | h | ⟨d, hd, hlt⟩
  · rw [h]
  · rw [h]
    rcases s.blockQueue with _ | ⟨a, t⟩ <;> rfl
  · rw [hd]
    rcases hq : s.blockQueue with _ | ⟨a, t⟩
    · rfl
    · simp only [if_pos hlt]

theorem maybeEmit_emit_eq (now : ℚ) (s : AppState) (smp : Sample)
    (rest : List Sample) (d : ℚ) (hq : s.blockQueue = smp :: rest)
    (hd : s.nextBlockDue = some d) (hle : d ≤ now) :
    maybeEmitBlock now s =
      ({ emitSample
          { s with blockQueue := rest, fileBlockIdx := s.fileBlockIdx + 1 }
          (blockTs s (s.fileBlockIdx + 1)) smp with
            nextBlockDue := some (now + 5) },
        some (blockTs s (s.fileBlockIdx + 1), smp)) := by
  unfold maybeEmitBlock
  rw [hq, hd]
  simp only [if_neg (not_lt.mpr hle)]

theorem maybeEmit_emit_fields (now : ℚ) (s : AppState) (smp : Sample)
    (rest : List Sample) (d : ℚ) (hq : s.blockQueue = smp :: rest)
    (hd : s.nextBlockDue = some d) (hle : d ≤ now) :
    (maybeEmitBlock now s).2 = some (blockTs s (s.fileBlockIdx + 1), smp) ∧
    (maybeEmitBlock now s).1.fileBlockIdx = s.fileBlockIdx + 1 ∧
    (maybeEmitBlock now s).1.fileStartEpoch = s.fileStartEpoch ∧
    (maybeEmitBlock now s).1.blockQueue = rest ∧
    (maybeEmitBlock now s).1.nextBlockDue = some (now + 5) ∧
    (maybeEmitBlock now s).1.seriesCpu =
      (match smp.cpuOverall with
       | some v => storeAppend s.seriesCpu (blockTs s (s.fileBlockIdx + 1)) v
       | none => s.seriesCpu) := by
  have heq := maybeEmit_emit_eq now s smp rest d hq hd hle
  obtain ⟨sc, scs, sd, sg, hshape⟩ := emitSample_shape
    { s with blockQueue := rest, fileBlockIdx := s.fileBlockIdx + 1 }
    (blockTs s (s.fileBlockIdx + 1)) smp
  have hcpu := emitSample_seriesCpu
    { s with blockQueue := rest, fileBlockIdx := s.fileBlockIdx + 1 }
    (blockTs s (s.fileBlockIdx + 1)) smp
  rw [hshape] at hcpu
  rw [heq, hshape]
  exact ⟨rfl, rfl, rfl, rfl, rfl, hcpu⟩

theorem blockTs_of_nonneg (s : AppState) (idx : ℤ) (h : 0 ≤ idx) :
    blockTs s idx = s.fileStartEpoch + 5 * ((idx : ℤ) : ℚ) := by
  unfold blockTs
  rw [max_eq_right h]

theorem ticksRun_len (times : List ℚ) : ∀ s : AppState,
    (ticksRun s times).2.length ≤ times.length := by
  induction times with
  | nil => intro s; simp [ticksRun]
  | cons t rest ih =>
    intro s
    cases h2 : (maybeEmitBlock t s).2 with
    | none =>
      simp only [ticksRun, h2, List.length_cons]
      exact le_trans (ih _) (Nat.le_succ _)
    | some e =>
      simp only [ticksRun, h2, List.length_cons]
      exact Nat.succ_le_succ (ih _)

theorem maybeEmit_cases (now : ℚ) (s : AppState) :
    maybeEmitBlock now s = (s, none) ∨
    ∃ smp rest d, s.blockQueue = smp :: rest ∧ s.nextBlockDue = some d ∧
      d ≤ now := by
  rcases hq : s.blockQueue with _ | ⟨smp, rest⟩
  · exact Or.inl (maybeEmit_skip now s (Or.inl hq))
  · rcases hd : s.nextBlockDue with _ | d
    · exact Or.inl (maybeEmit_skip now s (Or.inr (Or.inl hd)))
    · by_cases hlt : now < d
      · exact Or.inl (maybeEmit_skip now s (Or.inr (Or.inr ⟨d, hd, hlt⟩)))
      · exact Or.inr ⟨smp, rest, d, rfl, rfl, not_lt.mp hlt⟩


theorem ticksRun_chain (times : List ℚ) : ∀ s : AppState,
    -1 ≤ s.fileBlockIdx →
    (∀ e : ℚ × Sample, (ticksRun s times).2.head? = some e →
      e.1 = s.fileStartEpoch + 5 * ((s.fileBlockIdx + 1 : ℤ) : ℚ)) ∧
    List.Chain' (fun a b : ℚ × Sample => b.1 = a.1 + 5) (ticksRun s times).2 := by
  induction times with
  | nil =>
    intro s _
    exact ⟨fun e he => by simp [ticksRun] at he, by simp [ticksRun]⟩
  | cons t rest ih =>
    intro s h
    rcases maybeEmit_cases t s with hcase | ⟨smp, rest', d, hq, hd, hle⟩
    · have h1 : (maybeEmitBlock t s).1 = s := by rw [hcase]
      have h2 : (maybeEmitBlock t s).2 = none := by rw [hcase]
      simp only [ticksRun, h2, h1]
      exact ih s h
    · obtain ⟨hsnd, hidx, hstart, -, -, -⟩ :=
        maybeEmit_emit_fields t s smp rest' d hq hd hle
      have h' : -1 ≤ (maybeEmitBlock t s).1.fileBlockIdx := by
        rw [hidx]; omega
      obtain ⟨ihHead, ihChain⟩ := ih (maybeEmitBlock t s).1 h'
      have hts : blockTs s (s.fileBlockIdx + 1) =
          s.fileStartEpoch + 5 * ((s.fileBlockIdx + 1 : ℤ) : ℚ) :=
        blockTs_of_nonneg s _ (by omega)
      constructor
      · intro e he
        simp only [ticksRun, hsnd, List.head?_cons] at he
        cases he
        exact hts
      · simp only [ticksRun, hsnd]
        rw [List.chain'_cons']
        refine ⟨?_, ihChain⟩
        intro b hb
        have hbv := ihHead b (by
          cases hh : (ticksRun (maybeEmitBlock t s).1 rest).2 with
          | nil => rw [hh] at hb; cases hb
          | cons x xs => rw [hh] at hb; cases hb; rfl)
        rw [hbv, hts, hidx, hstart]
        push_cast
        ring

/-- C1 -- One pacer tick emits at most one sample, and emits exactly
when the block queue is non-empty and the wall clock has reached the
due time; an emission increments the block index by 1, stamps the
popped sample with `start_epoch + 5 * block_index`, and pushes the due
time 5 s past `now`; hence over any sequence of ticks of a session
(block index at least its initial -1) the emitted synthetic timestamps
step by exactly the 5 s interval, so they are strictly increasing. -/
theorem pacer_paces (s : AppState) (h : -1 ≤ s.fileBlockIdx)
    (times : List ℚ) :
    (∀ now : ℚ, ((maybeEmitBlock now s).2 ≠ none ↔
      s.blockQueue ≠ [] ∧ ∃ d : ℚ, s.nextBlockDue = some d ∧ d ≤ now)) ∧
    (∀ (now : ℚ) (smp : Sample) (rest : List Sample) (d : ℚ),
      s.blockQueue = smp :: rest → s.nextBlockDue = some d → d ≤ now →
      (maybeEmitBlock now s).1.fileBlockIdx = s.fileBlockIdx + 1 ∧
      (maybeEmitBlock now s).2 =
        some (s.fileStartEpoch + 5 * ((s.fileBlockIdx + 1 : ℤ) : ℚ), smp) ∧
      (maybeEmitBlock now s).1.nextBlockDue = some (now + 5)) ∧
    (ticksRun s times).2.length ≤ times.length ∧
    List.Chain' (fun a b : ℚ × Sample => b.1 = a.1 + 5) (ticksRun s times).2 := by
  refine ⟨?_, ?_, ticksRun_len times s, (ticksRun_chain times s h).2⟩
  · intro now
    constructor
    · intro hne
      rcases maybeEmit_cases now s with hcase | ⟨smp, rest, d, hq, hd, hle⟩
      · exact absurd (by rw [hcase]) hne
      · exact ⟨by rw [hq]; simp, d, hd, hle⟩
    · rintro ⟨hqne, d, hd, hle⟩
      rcases hq : s.blockQueue with _ | ⟨smp, rest⟩
      · exact absurd hq hqne
      · obtain ⟨hsnd, -⟩ := maybeEmit_emit_fields now s smp rest d hq hd hle
        rw [hsnd]
        simp
  · intro now smp rest d hq hd hle
    obtain ⟨hsnd, hidx, -, -, hdue, -⟩ :=
      maybeEmit_emit_fields now s smp rest d hq hd hle
    refine ⟨hidx, ?_, hdue⟩
    rw [hsnd, blockTs_of_nonneg s _ (by omega)]

/-- Witness for `pacer_paces`: a session with two queued blocks ticked
at 0, 1 and 6 seconds; the hypothesis holds and the emitted timestamps
step by 5. -/
theorem pacer_paces_witness :
    -1 ≤ loadedState.fileBlockIdx ∧
    List.Chain' (fun a b : ℚ × Sample => b.1 = a.1 + 5)
      (ticksRun loadedState [0, 1, 6]).2 :=
  ⟨by decide, (pacer_paces loadedState (by decide) [0, 1, 6]).2.2.2⟩

/-! ## Line reassembler lemmas -/

theorem splitNl_ne_nil (l : Bytes) : splitNl l ≠ [] := by
  induction l with
  | nil => simp [splitNl]
  | cons c rest ih =>
    simp only [splitNl]
    split
    · simp
    · cases h : splitNl rest with
      | nil => simp
      | cons a t => simp

theorem joinNl_splitNl (l : Bytes) : joinNl (splitNl l) = l := by
  induction l with
  | nil => rfl
  | cons c rest ih =>
    simp only [splitNl]
    split
    · rename_i hc
      subst hc
      cases h : splitNl rest with
      | nil => exact absurd h (splitNl_ne_nil rest)
      | cons a t =>
        rw [h] at ih
        simp [joinNl, ih]
    · cases h : splitNl rest with
      | nil => exact absurd h (splitNl_ne_nil rest)
      | cons a t =>
        rw [h] at ih
        cases t with
        | nil => simp_all [joinNl]
        | cons b t2 => simp_all [joinNl]

theorem joinLines_dropLast_getLastD (parts : List Bytes) (h : parts ≠ []) :
    joinLines parts.dropLast ++ parts.getLastD [] = joinNl parts := by
  induction parts with
  | nil => exact absurd rfl h
  | cons a rest ih =>
    cases rest with
    | nil => simp [joinLines, joinNl]
    | cons b t =>
      have hne : b :: t ≠ [] := by simp
      have h2 := ih hne
      have hd : (a :: b :: t).dropLast = a :: (b :: t).dropLast := rfl
      have hl : (a :: b :: t).getLastD ([] : Bytes) = (b :: t).getLastD [] := by
        simp [List.getLastD_cons]
      have hj : joinNl (a :: b :: t) = a ++ '\n' :: joinNl (b :: t) := rfl
      rw [hd, hl, hj]
      simp only [joinLines]
      rw [List.append_assoc, List.cons_append, h2]

theorem feed_reconstruct (rem chunk : Bytes) :
    joinLines (feed rem chunk).1 ++ (feed rem chunk).2 = rem ++ chunk := by
  have h := joinLines_dropLast_getLastD (splitNl (rem ++ chunk))
    (splitNl_ne_nil _)
  simpa [feed, joinNl_splitNl] using h

theorem joinLines_append (a b : List Bytes) :
    joinLines (a ++ b) = joinLines a ++ joinLines b := by
  induction a with
  | nil => rfl
  | cons x t ih => simp [joinLines, ih]

theorem runChunks_reconstruct (chunks : List Bytes) (rem : Bytes) :
    joinLines (runChunks rem chunks).1 ++ (runChunks rem chunks).2 =
      rem ++ chunks.flatten := by
  induction chunks generalizing rem with
  | nil => simp [runChunks, joinLines]
  | cons chunk rest ih =>
    simp only [runChunks, List.flatten_cons]
    rw [joinLines_append, List.append_assoc, ih (feed rem chunk).2,
      ← List.append_assoc, feed_reconstruct, List.append_assoc]

theorem splitNl_no_newline (l : Bytes) (h : '\n' ∉ l) : splitNl l = [l] := by
  induction l with
  | nil => rfl
  | cons c rest ih =>
    simp only [List.mem_cons, not_or] at h
    simp only [splitNl]
    rw [if_neg (fun hc => h.1 hc.symm)]
    rw [ih h.2]

/-- C2 -- For every byte string and every way of splitting it into
chunks, feeding the chunks sequentially through the line reassembler and
concatenating all emitted lines (each with its newline) followed by the
final remainder reproduces the original byte string exactly; moreover a
chunk without any newline emits no line at all and is entirely folded
into the remainder (given the remainder invariant that it holds no
newline). -/
theorem line_reassembly_reconstructs (chunks : List Bytes) :
    joinLines (runChunks [] chunks).1 ++ (runChunks [] chunks).2 =
      chunks.flatten ∧
    ∀ rem chunk : Bytes, '\n' ∉ rem → '\n' ∉ chunk →
      feed rem chunk = ([], rem ++ chunk) := by
  constructor
  · simpa using runChunks_reconstruct chunks []
  · intro rem chunk hr hc
    have hno : '\n' ∉ rem ++ chunk := by
      simp only [List.mem_append, not_or]
      exact ⟨hr, hc⟩
    simp [feed, splitNl_no_newline _ hno]

/-- Witness for the hypotheses of `line_reassembly_reconstructs`: a
remainder and a chunk with no newline, evaluated concretely. -/
theorem line_reassembly_reconstructs_witness :
    '\n' ∉ String.toList "ab" ∧ '\n' ∉ String.toList "cd" ∧
    feed (String.toList "ab") (String.toList "cd") =
      ([], String.toList "abcd") := by
  refine ⟨by decide, by decide, ?_⟩
  exact (line_reassembly_reconstructs []).2 (String.toList "ab")
    (String.toList "cd") (by decide) (by decide)

/-! ## Stop / clear semantics (C4) -/

/-- C4 counterexample -- Stopping (and likewise clearing) a running
session with the concrete queued block `sampleA` does not empty the
block queue and does not idle the pacer, and the supposedly discarded
sample is still appended to the CPU time series by the next pacer tick:
the claim that stop/clear discard queued samples is false. -/
theorem stop_keeps_queue_cex :
    (stopProcess loadedState).blockQueue = [sampleA, sampleB] ∧
    (onClear loadedState).blockQueue = [sampleA, sampleB] ∧
    (stopProcess loadedState).nextBlockDue = some 0 ∧
    (onClear loadedState).nextBlockDue = some 0 ∧
    (maybeEmitBlock 0 (stopProcess loadedState)).1.seriesCpu = [(0, 50)] := by
  refine ⟨by decide, by decide, by decide, by decide, ?_⟩
  obtain ⟨-, -, -, -, -, hser⟩ :=
    maybeEmit_emit_fields 0 (stopProcess loadedState) sampleA [sampleB] 0
      (by decide) (by decide) (le_refl 0)
  rw [hser]
  show storeAppend (stopProcess loadedState).seriesCpu
    (blockTs (stopProcess loadedState)
      ((stopProcess loadedState).fileBlockIdx + 1)) 50 = [(0, 50)]
  have h1 : (stopProcess loadedState).seriesCpu = [] := by decide
  have h2 : blockTs (stopProcess loadedState)
      ((stopProcess loadedState).fileBlockIdx + 1) = 0 := by
    have hidx : (stopProcess loadedState).fileBlockIdx = -1 := by decide
    have hst : (stopProcess loadedState).fileStartEpoch = 0 := by decide
    rw [hidx]
    unfold blockTs
    rw [hst]
    norm_num
  rw [h1, h2]
  have h3 : clamp01 50 = 50 := by decide
  unfold storeAppend
  rw [h3]
  rfl

/-- C4 (amended) -- `_stop_process` only stops the file tail (timer
flag cleared, remainder dropped, block index reset) and `_on_clear`
only empties the time series and rewinds the tail offset; neither
empties the block queue, clears the pending due time nor stops the
block timer, so queued-but-unemitted samples survive stop/clear and can
still be emitted into the time series afterwards. -/
theorem stop_clear_keep_queue (s : AppState) :
    (stopProcess s).blockQueue = s.blockQueue ∧
    (onClear s).blockQueue = s.blockQueue ∧
    (stopProcess s).nextBlockDue = s.nextBlockDue ∧
    (onClear s).nextBlockDue = s.nextBlockDue ∧
    (stopProcess s).blockTimerActive = s.blockTimerActive ∧
    (onClear s).blockTimerActive = s.blockTimerActive ∧
    (stopProcess s).fileTailActive = false ∧
    (stopProcess s).fileTailRem = [] ∧
    (stopProcess s).fileBlockIdx = -1 ∧
    (onClear s).seriesCpu = [] ∧ (onClear s).seriesDram = [] ∧
    (onClear s).seriesGpu = [] := by
  exact ⟨rfl, rfl, rfl, rfl, rfl, rfl, rfl, rfl, rfl, rfl, rfl, rfl⟩

/-! ## Time-series append semantics (C5, C7) -/

/-- C5 counterexample -- Appending a pair with a timestamp older than
the last stored one (0 after 10) does not drop the sample: the series
changes, gaining the out-of-order pair, so the claimed
only-if-newer/silently-dropped contract is false of the code. -/
theorem store_append_old_ts_cex :
    (0 : ℚ) < 10 ∧
    storeAppend [((10 : ℚ), (50 : ℚ))] 0 50 ≠ [((10 : ℚ), (50 : ℚ))] ∧
    storeAppend [((10 : ℚ), (50 : ℚ))] 0 50 = [(10, 50), (0, 50)] := by
  refine ⟨by norm_num, ?_, ?_⟩ <;> decide

/-- C5 (amended) -- The per-series append performed by the emitter is
unconditional: whenever a tick emits, the clamped value is appended to
the series under the synthetic timestamp with no comparison against the
series' last stored timestamp (an older timestamp is stored out of
order, not dropped); non-decreasing timestamps are only a consequence
of the pacer's monotone block index within one uninterrupted session. -/
theorem store_append_unconditional (now : ℚ) (s : AppState) (smp : Sample)
    (rest : List Sample) (d v : ℚ) (hq : s.blockQueue = smp :: rest)
    (hd : s.nextBlockDue = some d) (hle : d ≤ now)
    (hcpu : smp.cpuOverall = some v) :
    (maybeEmitBlock now s).1.seriesCpu =
      s.seriesCpu ++ [(blockTs s (s.fileBlockIdx + 1), clamp01 v)] := by
  obtain ⟨-, -, -, -, -, hser⟩ := maybeEmit_emit_fields now s smp rest d hq hd hle
  rw [hser, hcpu]
  rfl

/-- Witness for `store_append_unconditional` at the concrete loaded
session: the emission appends (0, 50) to the empty CPU series. -/
theorem store_append_unconditional_witness :
    loadedState.blockQueue = sampleA :: [sampleB] ∧
    loadedState.nextBlockDue = some 0 ∧ (0 : ℚ) ≤ 0 ∧
    sampleA.cpuOverall = some 50 ∧
    (maybeEmitBlock 0 loadedState).1.seriesCpu =
      loadedState.seriesCpu ++
        [(blockTs loadedState (loadedState.fileBlockIdx + 1), clamp01 50)] :=
  ⟨by decide, by decide, le_refl 0, by decide,
    store_append_unconditional 0 loadedState sampleA [sampleB] 0 50
      (by decide) (by decide) (le_refl 0) (by decide)⟩

/-- C7 -- Every value is clamped to [0, 100] before being appended to a
time series: 150 is stored as 100 and -5 as 0, and in general the
stored value always lies within [0, 100]. -/
theorem value_clamping (series : List (ℚ × ℚ)) (ts : ℚ) :
    storeAppend series ts 150 = series ++ [(ts, 100)] ∧
    storeAppend series ts (-5) = series ++ [(ts, 0)] ∧
    ∀ v : ℚ, 0 ≤ clamp01 v ∧ clamp01 v ≤ 100 := by
  refine ⟨?_, ?_, ?_⟩
  · unfold storeAppend clamp01
    norm_num
  · unfold storeAppend clamp01
    norm_num
  · intro v
    constructor
    · exact le_max_left 0 _
    · unfold clamp01
      exact max_le (by norm_num) (min_le_left 100 v)

/-! ## Tail source adapters (C6) -/

/-- C6 counterexample -- Delivering the same single chunk (one complete
block) through the two adapters from the same fresh session state is
not downstream-equivalent: the local file tail commits one block to the
queue while the remote streaming handler commits none and only grows
the unread `line_buffer`. -/
theorem tail_variants_differ_cex :
    ([oneBlockChunk].foldl (fileTailFeed 0) (startState 0 [])).blockQueue.length
        = 1 ∧
    ([oneBlockChunk].foldl (onProcessOutput 0) (startState 0 [])).blockQueue.length
        = 0 ∧
    ([oneBlockChunk].foldl (onProcessOutput 0) (startState 0 [])).lineBuffer
        = oneBlockChunk := by
  refine ⟨by decide, by decide, by decide⟩

/-- C6 (amended) -- The remote streaming handler never feeds the line
reassembler or block segmenter: for every chunk and state it leaves the
block queue and every time series unchanged (it only buffers raw
bytes), so the two tail variants are not downstream-equivalent. -/
theorem remote_tail_inert (now : ℚ) (s : AppState) (chunk : Bytes) :
    (onProcessOutput now s chunk).blockQueue = s.blockQueue ∧
    (onProcessOutput now s chunk).seriesCpu = s.seriesCpu ∧
    (onProcessOutput now s chunk).seriesDram = s.seriesDram ∧
    (onProcessOutput now s chunk).seriesGpu = s.seriesGpu ∧
    (onProcessOutput now s chunk).seriesCores = s.seriesCores := by
  unfold onProcessOutput onStop stopProcess stopTailFile
  split
  · exact ⟨rfl, rfl, rfl, rfl, rfl⟩
  · split
    · dsimp only
      split <;> exact ⟨rfl, rfl, rfl, rfl, rfl⟩
    · dsimp only
      split <;> exact ⟨rfl, rfl, rfl, rfl, rfl⟩

/-! ## Block segmenter lemmas -/

theorem enqueueBlock_queue (now : ℚ) (cpu : Option ℚ)
    (cv : List (ℕ × ℚ)) (dram gpu : Option ℚ) (s : AppState) :
    (enqueueBlock now cpu cv dram gpu s).blockQueue =
      s.blockQueue ++ [⟨cpu, cv, dram, gpu⟩] := by
  unfold enqueueBlock
  dsimp only
  split <;> rfl

theorem stepLine_cpu (now : ℚ) (s : AppState) (line : List Char) (v : ℚ)
    (hact : s.blkActive = true)
    (hnm : hasPrefixB startMarker line = false)
    (hm : matchCpuOverall line = some v) :
    stepLine now s line = { s with blkCpuOverall := some v } := by
  simp [stepLine, hnm, hact, hm]

theorem stepLine_blank (now : ℚ) (s : AppState) (line : List Char)
    (hact : s.blkActive = true)
    (hnm : hasPrefixB startMarker line = false)
    (hc1 : matchCpuOverall line = none) (hc2 : matchCpuCore line = none)
    (hc3 : matchMonitorField dramLit line = none)
    (hc4 : matchMonitorField gpuLit line = none)
    (hblank : line.all isPySpace = true)
    (hdg : (s.blkDramVal.isSome || s.blkGpuVal.isSome) = true) :
    stepLine now s line =
      resetBlk false (enqueueBlock now s.blkCpuOverall s.blkCoreVals
        s.blkDramVal s.blkGpuVal s) := by
  simp [stepLine, hnm, hact, hc1, hc2, hc3, hc4, hblank, hdg]

/-! ## Block flush-on-restart (C3) -/

/-- C3 -- Feeding the segmenter the five-line sequence START,
"cpu: 10%", START, "cpu: 20%", GPU-5% from the idle start state commits
exactly two blocks: the first holds only `cpu_overall = 10` (flushed
because the second START arrived while a non-empty block was active),
the second holds `cpu_overall = 20` and `gpu = 5` (committed on the GPU
match with DRAM still absent), and the machine ends inactive (IDLE). -/
theorem block_flush_on_restart :
    (parseLines 0 (startState 0 []) flushLines).blockQueue =
      [⟨some 10, [], none, none⟩, ⟨some 20, [], none, some 5⟩] ∧
    (parseLines 0 (startState 0 []) flushLines).blkActive = false := by
  exact ⟨by decide, by decide⟩

/-! ## Blank-line commit (C8) -/

/-- C8 counterexample -- Delivering a truly empty blank line through
the pipeline (chunk "\n\n" on a session whose active block already
holds a DRAM value) does not commit the block: the `if ln` filter of
the tail reader drops empty byte lines before parsing, so the queue
stays empty and the block stays active, contradicting the claim that a
blank line always forces a commit. -/
theorem blank_line_dropped_cex :
    (fileTailFeed 0 activeDramState (String.toList "\n\n")).blockQueue = [] ∧
    (fileTailFeed 0 activeDramState (String.toList "\n\n")).blkActive = true := by
  exact ⟨by decide, by decide⟩

/-- C8 (amended) -- A blank line forces a commit only when it survives
the tail reader's empty-line filter, i.e. when it still contains some
whitespace (a space, or a carriage return that is stripped after the
filter): for any active session with DRAM or GPU recorded and an empty
remainder, feeding the chunk " \n" commits the accumulated block to the
queue and returns the segmenter to IDLE. -/
theorem whitespace_blank_commits (now : ℚ) (s : AppState)
    (hta : s.fileTailActive = true) (hrem : s.fileTailRem = [])
    (hact : s.blkActive = true)
    (hdg : (s.blkDramVal.isSome || s.blkGpuVal.isSome) = true) :
    (fileTailFeed now s [' ', '\n']).blockQueue =
      s.blockQueue ++ [⟨s.blkCpuOverall, s.blkCoreVals,
        s.blkDramVal, s.blkGpuVal⟩] ∧
    (fileTailFeed now s [' ', '\n']).blkActive = false := by
  have hred : fileTailFeed now s [' ', '\n'] =
      stepLine now { s with fileTailPos := s.fileTailPos + 2, fileTailRem := [] } [' '] := by
    unfold fileTailFeed
    rw [hta, hrem]
    rfl
  have hstep := stepLine_blank now
    { s with fileTailPos := s.fileTailPos + 2, fileTailRem := [] } [' ']
    hact (by decide) (by decide) (by decide) (by decide) (by decide)
    (by decide) hdg
  rw [hred, hstep]
  constructor
  · show (enqueueBlock now s.blkCpuOverall s.blkCoreVals s.blkDramVal
      s.blkGpuVal
      { s with fileTailPos := s.fileTailPos + 2, fileTailRem := [] }).blockQueue = _
    rw [enqueueBlock_queue]
  · rfl

/-- Witness for `whitespace_blank_commits` at the concrete active
session holding a DRAM value. -/
theorem whitespace_blank_commits_witness :
    activeDramState.fileTailActive = true ∧
    activeDramState.fileTailRem = [] ∧
    activeDramState.blkActive = true ∧
    (activeDramState.blkDramVal.isSome ||
      activeDramState.blkGpuVal.isSome) = true ∧
    (fileTailFeed 0 activeDramState [' ', '\n']).blockQueue =
      activeDramState.blockQueue ++
        [⟨activeDramState.blkCpuOverall, activeDramState.blkCoreVals,
          activeDramState.blkDramVal, activeDramState.blkGpuVal⟩] ∧
    (fileTailFeed 0 activeDramState [' ', '\n']).blkActive = false := by
  refine ⟨by decide, by decide, by decide, by decide, ?_, ?_⟩
  · exact (whitespace_blank_commits 0 activeDramState (by decide) (by decide)
      (by decide) (by decide)).1
  · exact (whitespace_blank_commits 0 activeDramState (by decide) (by decide)
      (by decide) (by decide)).2

/-! ## Last-write-wins (C9) -/

/-- C9 -- Within one active block a later match of the same field's
pattern overwrites the earlier value (no averaging): from any active
state, processing "cpu: 10%" then "cpu: 30%" leaves `cpu_overall = 30`;
and concretely the in-block sequence "cpu: 10%", "cpu: 30%", GPU-0%
commits a single sample with `cpu_overall = 30`. -/
theorem last_write_wins (now : ℚ) (s : AppState)
    (hact : s.blkActive = true) :
    (stepLine now (stepLine now s (String.toList "cpu: 10%"))
        (String.toList "cpu: 30%")).blkCpuOverall = some 30 ∧
    (parseLines 0 (startState 0 []) lwwLines).blockQueue =
      [⟨some 30, [], none, some 0⟩] := by
  constructor
  · rw [stepLine_cpu now s (String.toList "cpu: 10%") 10 hact
      (by decide) (by decide)]
    rw [stepLine_cpu now { s with blkCpuOverall := some 10 }
      (String.toList "cpu: 30%") 30 hact (by decide) (by decide)]
  · decide

/-- Witness for `last_write_wins` at the concrete active session. -/
theorem last_write_wins_witness :
    activeDramState.blkActive = true ∧
    (stepLine 0 (stepLine 0 activeDramState (String.toList "cpu: 10%"))
        (String.toList "cpu: 30%")).blkCpuOverall = some 30 :=
  ⟨by decide, (last_write_wins 0 activeDramState (by decide)).1⟩

/-! ## Queue snapshots and FIFO order (C10) -/

theorem stepLine_queue_mono (now : ℚ) (s : AppState) (line : List Char) :
    ∃ t, (stepLine now s line).blockQueue = s.blockQueue ++ t := by
  unfold stepLine
  split
  · split
    · exact ⟨_, enqueueBlock_queue _ _ _ _ _ _⟩
    · exact ⟨[], (List.append_nil _).symm⟩
  · split
    · exact ⟨[], (List.append_nil _).symm⟩
    · split
      · exact ⟨[], (List.append_nil _).symm⟩
      · split
        · exact ⟨[], (List.append_nil _).symm⟩
        · split
          · exact ⟨[], (List.append_nil _).symm⟩
          · split
            · exact ⟨_, enqueueBlock_queue _ _ _ _ _ _⟩
            · split
              · exact ⟨_, enqueueBlock_queue _ _ _ _ _ _⟩
              · exact ⟨[], (List.append_nil _).symm⟩

theorem parseLines_queue_mono (now : ℚ) (lines : List (List Char)) :
    ∀ s : AppState,
      ∃ t, (parseLines now s lines).blockQueue = s.blockQueue ++ t := by
  induction lines with
  | nil => intro s; exact ⟨[], (List.append_nil _).symm⟩
  | cons l ls ih =>
    intro s
    obtain ⟨t1, h1⟩ := stepLine_queue_mono now s l
    obtain ⟨t2, h2⟩ := ih (stepLine now s l)
    refine ⟨t1 ++ t2, ?_⟩
    show (parseLines now (stepLine now s l) ls).blockQueue = _
    rw [h2, h1, List.append_assoc]

/-- C10 -- Committed samples in the queue are never mutated afterwards:
processing any further lines only appends new entries at the tail
(every existing entry, with the per-core mapping snapshotted at enqueue
time, is preserved unchanged as a prefix), and the pacer pops exactly
the head of the queue, so samples are emitted in FIFO order. -/
theorem queue_snapshot_fifo :
    (∀ (now : ℚ) (s : AppState) (lines : List (List Char)),
      ∃ t, (parseLines now s lines).blockQueue = s.blockQueue ++ t) ∧
    (∀ (now : ℚ) (s : AppState) (smp : Sample) (rest : List Sample) (d : ℚ),
      s.blockQueue = smp :: rest → s.nextBlockDue = some d → d ≤ now →
      (maybeEmitBlock now s).1.blockQueue = rest ∧
      (maybeEmitBlock now s).2 =
        some (blockTs s (s.fileBlockIdx + 1), smp)) := by
  constructor
  · intro now s lines
    exact parseLines_queue_mono now lines s
  · intro now s smp rest d hq hd hle
    obtain ⟨hsnd, -, -, hqueue, -, -⟩ :=
      maybeEmit_emit_fields now s smp rest d hq hd hle
    exact ⟨hqueue, hsnd⟩

/-- Witness for `queue_snapshot_fifo` at the concrete loaded session:
the first tick pops exactly the head sample. -/
theorem queue_snapshot_fifo_witness :
    loadedState.blockQueue = sampleA :: [sampleB] ∧
    loadedState.nextBlockDue = some 0 ∧ (0 : ℚ) ≤ 0 ∧
    (maybeEmitBlock 0 loadedState).1.blockQueue = [sampleB] ∧
    (maybeEmitBlock 0 loadedState).2 =
      some (blockTs loadedState (loadedState.fileBlockIdx + 1), sampleA) := by
  refine ⟨by decide, by decide, le_refl 0, ?_, ?_⟩
  · exact (queue_snapshot_fifo.2 0 loadedState sampleA [sampleB] 0
      (by decide) (by decide) (le_refl 0)).1
  · exact (queue_snapshot_fifo.2 0 loadedState sampleA [sampleB] 0
      (by decide) (by decide) (le_refl 0)).2

end StressTool
